import Mathlib

/-!
Verification development for the MathAcademyLogAnalyzer repository.

The definitions below are shallow embeddings of the Python sources:
  * `src/ma_log_pdf_parser/course_parser.py` (activity-log line scanner),
  * `src/ma_log_pdf_parser/course_parser_backup.py` (legacy duplicate),
  * `src/ma_log_pdf_parser/chart_generator.py` (derived series, streaks,
    trend, heatmap levels, statistics query),
  * `src/ma_log_pdf_parser/main.py` (the `stats` CLI subcommand).

Machine text is modelled as `List Char`; Python integers as `Nat`/`Int`;
pandas float columns as `Rat` (exact arithmetic standing in for IEEE
doubles, whose values here are small integers and exact small ratios).
-/

namespace MALog

/-! ## ASCII character classes used by the regex patterns
Python's `re` classes restricted to ASCII: `\s`, `\d`, `\w`. -/

def isSpaceC (c : Char) : Bool :=
  c = ' ' || c = '\t' || c = '\n' || c = '\r' || c = '\x0b' || c = '\x0c'

def isDigitC (c : Char) : Bool := '0' ≤ c && c ≤ '9'

def isWordC (c : Char) : Bool :=
  ('a' ≤ c && c ≤ 'z') || ('A' ≤ c && c ≤ 'Z') || isDigitC c || c = '_'

/-- A cased (ASCII letter) character, as used by Python `str.title()`. -/
def isCasedC (c : Char) : Bool := ('a' ≤ c && c ≤ 'z') || ('A' ≤ c && c ≤ 'Z')

/-! ## Python string primitives -/

/-- Python `str.strip()` (ASCII whitespace). -/
def stripL (l : List Char) : List Char :=
  ((l.dropWhile isSpaceC).reverse.dropWhile isSpaceC).reverse

/-- Python `str.title()`: a cased character is uppercased when the previous
character is not cased, lowercased otherwise; uncased characters pass through. -/
def titleAux : Bool → List Char → List Char
  | _, [] => []
  | prevCased, c :: r =>
    (if isCasedC c then (if prevCased then c.toLower else c.toUpper) else c) ::
      titleAux (isCasedC c) r

def titleL (l : List Char) : List Char := titleAux false l

/-- Python `str.capitalize()` (ASCII): first character uppercased, rest lowercased. -/
def capitalizeL : List Char → List Char
  | [] => []
  | c :: r => c.toUpper :: r.map Char.toLower

/-- Value of a decimal digit string, as Python `int(...)` on the regex groups. -/
def digitsToNat (l : List Char) : Nat :=
  l.foldl (fun a c => a * 10 + (c.toNat - '0'.toNat)) 0

/-- Decimal rendering of a natural number (fuel-driven, fuel `n+1` suffices). -/
def natToStrAux : Nat → Nat → List Char
  | _, 0 => []
  | n, fuel + 1 =>
    if n < 10 then [Char.ofNat ('0'.toNat + n)]
    else natToStrAux (n / 10) fuel ++ [Char.ofNat ('0'.toNat + n % 10)]

def natToStr (n : Nat) : String := String.mk (natToStrAux n (n + 1))

/-- Python `f"{n:02d}"` for `n ≤ 99` (the parsed day has at most two digits). -/
def pad2 (n : Nat) : String :=
  String.mk [Char.ofNat ('0'.toNat + n / 10 % 10), Char.ofNat ('0'.toNat + n % 10)]

/-- Substring containment, Python `pat in line`. -/
def hasSub (pat : List Char) : List Char → Bool
  | [] => pat.isEmpty
  | c :: rest => ((c :: rest).take pat.length == pat) || hasSub pat rest

/-- Split on every newline character, Python `text.split('\n')`. -/
def splitNl : List Char → List (List Char)
  | [] => [[]]
  | c :: r =>
    if c = '\n' then [] :: splitNl r
    else
      match splitNl r with
      | [] => [[c]]
      | h :: t => (c :: h) :: t

/-! ## The date-header regex

Python: `re.search` with
  `(\w+),\s+(\w+)\s+(\d{1,2})(?:st|nd|rd|th)?,\s+(\d{4})\s+\((\d+)\s+XP\)`.
Every quantifier except the day length and the optional ordinal suffix is
forced (its character class is disjoint from what follows), so the
backtracking search reduces to maximal-run scanning; the day width (2 then
1 digits, greedy) and the optional suffix (present then absent, greedy)
are tried in the engine's order.  `re.search` tries start offsets left to
right. -/

structure DateGroups where
  weekday : List Char
  month : List Char
  day : List Char
  year : List Char
  total : List Char
deriving DecidableEq, Repr

/-- Tail of the date pattern after the year: `\s+\((\d+)\s+XP\)`.
Returns the digits of the daily total. -/
def dateTail (s : List Char) : Option (List Char) :=
  let (ws, r1) := s.span isSpaceC
  if ws.isEmpty then none else
  match r1 with
  | '(' :: r2 =>
    let (ds, r3) := r2.span isDigitC
    if ds.isEmpty then none else
    let (ws2, r4) := r3.span isSpaceC
    if ws2.isEmpty then none else
    match r4 with
    | 'X' :: 'P' :: ')' :: _ => some ds
    | _ => none
  | _ => none

/-- `\s+(\d{4})` followed by `dateTail`; returns (year digits, total digits). -/
def dateYearPart (s : List Char) : Option (List Char × List Char) :=
  let (ws, r) := s.span isSpaceC
  if ws.isEmpty then none else
  match r with
  | a :: b :: c :: d :: rest =>
    if isDigitC a && isDigitC b && isDigitC c && isDigitC d then
      (dateTail rest).map (fun n => ([a, b, c, d], n))
    else none
  | _ => none

/-- After the ordinal-suffix position: `,` then `dateYearPart`. -/
def dateCommaPart (day : List Char) (s : List Char) :
    Option (List Char × List Char × List Char) :=
  match s with
  | ',' :: r2 => (dateYearPart r2).map (fun yn => (day, yn.1, yn.2))
  | _ => none

/-- Greedy optional `(?:st|nd|rd|th)?` followed by `dateCommaPart`: the
suffix is consumed when possible and the rest matches, otherwise skipped. -/
def dateSuffixPart (day : List Char) (s : List Char) :
    Option (List Char × List Char × List Char) :=
  match s with
  | x :: y :: r2 =>
    if (x = 's' && y = 't') || (x = 'n' && y = 'd') ||
       (x = 'r' && y = 'd') || (x = 't' && y = 'h') then
      match dateCommaPart day r2 with
      | some v => some v
      | none => dateCommaPart day s
    else dateCommaPart day s
  | _ => dateCommaPart day s

/-- Greedy `(\d{1,2})`: two digits tried before one. -/
def dateDayPart (s : List Char) : Option (List Char × List Char × List Char) :=
  match s with
  | a :: b :: rest =>
    if isDigitC a then
      if isDigitC b then
        match dateSuffixPart [a, b] rest with
        | some v => some v
        | none => dateSuffixPart [a] (b :: rest)
      else dateSuffixPart [a] (b :: rest)
    else none
  | [a] => if isDigitC a then dateSuffixPart [a] [] else none
  | [] => none

/-- Attempt the date pattern anchored at the start of `s`. -/
def dateMatchAt (s : List Char) : Option DateGroups :=
  let (w, r1) := s.span isWordC
  if w.isEmpty then none else
  match r1 with
  | ',' :: r2 =>
    let (ws1, r3) := r2.span isSpaceC
    if ws1.isEmpty then none else
    let (m, r4) := r3.span isWordC
    if m.isEmpty then none else
    let (ws2, r5) := r4.span isSpaceC
    if ws2.isEmpty then none else
    (dateDayPart r5).map (fun v => ⟨w, m, v.1, v.2.1, v.2.2⟩)
  | _ => none

/-- `re.search` over all start offsets, leftmost first. -/
def dateSearch : List Char → Option DateGroups
  | [] => none
  | c :: rest =>
    match dateMatchAt (c :: rest) with
    | some g => some g
    | none => dateSearch rest

/-! ## The regular-task regex

Python: `re.search` with
  `(.+?)\s+(Quiz|Lesson|Review|Multistep)\s+(.+?)\s+(\d+)/(\d+)\s+XP`.
The two lazy groups are tried shortest-first; the `\s+`/`\d+` runs are
forced maximal (disjoint follower classes); the four keyword alternatives
start with distinct letters so at most one applies at a position.  Because
the pattern starts with `(.+?)` (which matches any character except a
newline), a match starting at offset `k > 0` inside a newline-free segment
extends to a match at the segment start, so the search loop below grows
group 1 from each segment start and restarts after each newline. -/

structure RegGroups where
  course : List Char
  keyword : List Char
  desc : List Char
  earned : List Char
  possible : List Char
deriving DecidableEq, Repr

/-- The keyword alternation `(Quiz|Lesson|Review|Multistep)`. -/
def keywordAt (s : List Char) : Option (List Char × List Char) :=
  if s.take 4 == "Quiz".data then some ("Quiz".data, s.drop 4)
  else if s.take 6 == "Lesson".data then some ("Lesson".data, s.drop 6)
  else if s.take 6 == "Review".data then some ("Review".data, s.drop 6)
  else if s.take 9 == "Multistep".data then some ("Multistep".data, s.drop 9)
  else none

/-- Tail `\s+(\d+)/(\d+)\s+XP`; returns (earned digits, possible digits). -/
def xpTail (s : List Char) : Option (List Char × List Char) :=
  let (ws, r1) := s.span isSpaceC
  if ws.isEmpty then none else
  let (e, r2) := r1.span isDigitC
  if e.isEmpty then none else
  match r2 with
  | '/' :: r3 =>
    let (p, r4) := r3.span isDigitC
    if p.isEmpty then none else
    let (ws2, r5) := r4.span isSpaceC
    if ws2.isEmpty then none else
    if r5.take 2 == "XP".data then some (e, p) else none
  | _ => none

/-- Lazy description group `(.+?)` (shortest first, never across a newline)
followed by `xpTail`. -/
def descLoop (acc : List Char) : List Char → Option (List Char × List Char × List Char)
  | [] => none
  | c :: rest =>
    if c = '\n' then none
    else
      match xpTail rest with
      | some ep => some (acc ++ [c], ep.1, ep.2)
      | none => descLoop (acc ++ [c]) rest

/-- Everything after group 1: `\s+ keyword \s+ (.+?) \s+ (\d+)/(\d+)\s+XP`. -/
def afterCourse (s : List Char) :
    Option (List Char × List Char × List Char × List Char) :=
  let (ws, r1) := s.span isSpaceC
  if ws.isEmpty then none else
  match keywordAt r1 with
  | some kr =>
    let (ws2, r3) := kr.2.span isSpaceC
    if ws2.isEmpty then none else
    (descLoop [] r3).map (fun v => (kr.1, v.1, v.2.1, v.2.2))
  | none => none

/-- Lazy course group `(.+?)` (shortest first); a newline ends the current
segment, after which the search restarts with an empty group. -/
def courseLoop (acc : List Char) : List Char → Option RegGroups
  | [] => none
  | c :: rest =>
    if c = '\n' then courseLoop [] rest
    else
      match afterCourse rest with
      | some v => some ⟨acc ++ [c], v.1, v.2.1, v.2.2.1, v.2.2.2⟩
      | none => courseLoop (acc ++ [c]) rest

def regularSearch (s : List Char) : Option RegGroups := courseLoop [] s

/-! ## The placement-task regex

Python: `re.search` with `(.+?)\s+(Placement)\s+(\d+)/\s+XP`. -/

structure PlacementGroups where
  course : List Char
  earned : List Char
deriving DecidableEq, Repr

/-- Everything after group 1: `\s+Placement\s+(\d+)/\s+XP`. -/
def afterCoursePlacement (s : List Char) : Option (List Char) :=
  let (ws, r1) := s.span isSpaceC
  if ws.isEmpty then none else
  if r1.take 9 == "Placement".data then
    let r2 := r1.drop 9
    let (ws2, r3) := r2.span isSpaceC
    if ws2.isEmpty then none else
    let (e, r4) := r3.span isDigitC
    if e.isEmpty then none else
    match r4 with
    | '/' :: r5 =>
      let (ws3, r6) := r5.span isSpaceC
      if ws3.isEmpty then none else
      if r6.take 2 == "XP".data then some e else none
    | _ => none
  else none

def placementLoop (acc : List Char) : List Char → Option PlacementGroups
  | [] => none
  | c :: rest =>
    if c = '\n' then placementLoop [] rest
    else
      match afterCoursePlacement rest with
      | some e => some ⟨acc ++ [c], e⟩
      | none => placementLoop (acc ++ [c]) rest

def placementSearch (s : List Char) : Option PlacementGroups := placementLoop [] s

/-! ## CourseProgressParser (course_parser.py) -/

/-- `_month_to_num`'s dictionary (the duplicate `'May'` key of the Python
literal collapses to a single entry, as in a Python dict). -/
def month_map : List (String × String) :=
  [("January", "01"), ("February", "02"), ("March", "03"), ("April", "04"),
   ("May", "05"), ("June", "06"), ("July", "07"), ("August", "08"),
   ("September", "09"), ("October", "10"), ("November", "11"), ("December", "12"),
   ("Jan", "01"), ("Feb", "02"), ("Mar", "03"), ("Apr", "04"),
   ("Jun", "06"), ("Jul", "07"), ("Aug", "08"),
   ("Sep", "09"), ("Oct", "10"), ("Nov", "11"), ("Dec", "12")]

/-- `_month_to_num`: case-sensitive lookup, default `"01"`. -/
def month_to_num (m : String) : String := (month_map.lookup m).getD "01"

/-- `_extract_course_name`: strip then `str.title()`. -/
def extract_course_name (l : List Char) : String := String.mk (titleL (stripL l))

/-- One parsed activity record (the dict appended to `course_data`).
`dailyTotal` is `Option` because the Python variable `daily_total` starts
as `None`. -/
structure ActivityRecord where
  date : String
  course : String
  task : String
  description : String
  xpEarned : Nat
  xpPossible : Nat
  xpDetail : String
  dailyTotal : Option Nat
deriving DecidableEq, Repr

/-- The scanner's carried state: `current_date` and `daily_total`. -/
structure ParseState where
  currentDate : Option String
  dailyTotal : Option Nat
deriving DecidableEq, Repr

def initState : ParseState := ⟨none, none⟩

/-- `f"{year}-{month_to_num(month)}-{int(day):02d}"`. -/
def mkDate (month day year : List Char) : String :=
  String.mk year ++ "-" ++ month_to_num (String.mk month) ++ "-" ++ pad2 (digitsToNat day)

/-- The skipped boilerplate lines (checked after the date pattern). -/
def isBoilerplate (l : List Char) : Bool :=
  (l.take 12 == "Activity Log".data) ||
  hasSub "Student ID:".data l ||
  hasSub "Start Date:".data l ||
  hasSub "End Date:".data l ||
  (l == "COURSE TASK DESCRIPTION XP EARNED".data)

/-- Record built from a regular-task match under an established date. -/
def mkRegularRecord (st : ParseState) (d : String) (r : RegGroups) : ActivityRecord :=
  { date := d
    course := extract_course_name r.course
    task := String.mk (capitalizeL r.keyword)
    description := String.mk (stripL r.desc)
    xpEarned := digitsToNat r.earned
    xpPossible := digitsToNat r.possible
    xpDetail := String.mk r.earned ++ "/" ++ String.mk r.possible
    dailyTotal := st.dailyTotal }

/-- Record built from a placement-task match under an established date. -/
def mkPlacementRecord (st : ParseState) (d : String) (p : PlacementGroups) : ActivityRecord :=
  { date := d
    course := extract_course_name p.course
    task := "Placement"
    description := "Placement Test"
    xpEarned := digitsToNat p.earned
    xpPossible := digitsToNat p.earned
    xpDetail := String.mk p.earned ++ "/"
    dailyTotal := st.dailyTotal }

/-- One iteration of the `for line in lines` loop of `parse_course_data`:
strip; skip empty; date pattern (sets state, no record); boilerplate skip;
regular task pattern, emitting only under an established date (falling
through otherwise); placement pattern likewise. -/
def processLine (st : ParseState) (rawLine : List Char) : ParseState × List ActivityRecord :=
  let line := stripL rawLine
  if line.isEmpty then (st, [])
  else
    match dateSearch line with
    | some g =>
      (⟨some (mkDate g.month g.day g.year), some (digitsToNat g.total)⟩, [])
    | none =>
      if isBoilerplate line then (st, [])
      else
        match regularSearch line, st.currentDate with
        | some r, some d => (st, [mkRegularRecord st d r])
        | _, _ =>
          match placementSearch line, st.currentDate with
          | some p, some d => (st, [mkPlacementRecord st d p])
          | _, _ => (st, [])

/-- `parse_course_data` on already-extracted text. -/
def parse_course_data (text : List Char) : List ActivityRecord :=
  ((splitNl text).foldl
    (fun acc l =>
      let sr := processLine acc.1 l
      (sr.1, acc.2 ++ sr.2))
    (initState, [])).2

/-! ## The legacy backup parser (course_parser_backup.py)

Its `parse_course_data`, `_month_to_num` and `_extract_course_name` are
byte-identical to the primary parser's, including the three regex pattern
literals (shared matcher embeddings above); the embedding below follows
the backup file line by line. -/

namespace backup

def month_map : List (String × String) :=
  [("January", "01"), ("February", "02"), ("March", "03"), ("April", "04"),
   ("May", "05"), ("June", "06"), ("July", "07"), ("August", "08"),
   ("September", "09"), ("October", "10"), ("November", "11"), ("December", "12"),
   ("Jan", "01"), ("Feb", "02"), ("Mar", "03"), ("Apr", "04"),
   ("Jun", "06"), ("Jul", "07"), ("Aug", "08"),
   ("Sep", "09"), ("Oct", "10"), ("Nov", "11"), ("Dec", "12")]

def month_to_num (m : String) : String := (month_map.lookup m).getD "01"

def extract_course_name (l : List Char) : String := String.mk (titleL (stripL l))

def mkDate (month day year : List Char) : String :=
  String.mk year ++ "-" ++ month_to_num (String.mk month) ++ "-" ++ pad2 (digitsToNat day)

def isBoilerplate (l : List Char) : Bool :=
  (l.take 12 == "Activity Log".data) ||
  hasSub "Student ID:".data l ||
  hasSub "Start Date:".data l ||
  hasSub "End Date:".data l ||
  (l == "COURSE TASK DESCRIPTION XP EARNED".data)

def mkRegularRecord (st : ParseState) (d : String) (r : RegGroups) : ActivityRecord :=
  { date := d
    course := extract_course_name r.course
    task := String.mk (capitalizeL r.keyword)
    description := String.mk (stripL r.desc)
    xpEarned := digitsToNat r.earned
    xpPossible := digitsToNat r.possible
    xpDetail := String.mk r.earned ++ "/" ++ String.mk r.possible
    dailyTotal := st.dailyTotal }

def mkPlacementRecord (st : ParseState) (d : String) (p : PlacementGroups) : ActivityRecord :=
  { date := d
    course := extract_course_name p.course
    task := "Placement"
    description := "Placement Test"
    xpEarned := digitsToNat p.earned
    xpPossible := digitsToNat p.earned
    xpDetail := String.mk p.earned ++ "/"
    dailyTotal := st.dailyTotal }

def processLine (st : ParseState) (rawLine : List Char) : ParseState × List ActivityRecord :=
  let line := stripL rawLine
  if line.isEmpty then (st, [])
  else
    match dateSearch line with
    | some g =>
      (⟨some (mkDate g.month g.day g.year), some (digitsToNat g.total)⟩, [])
    | none =>
      if isBoilerplate line then (st, [])
      else
        match regularSearch line, st.currentDate with
        | some r, some d => (st, [mkRegularRecord st d r])
        | _, _ =>
          match placementSearch line, st.currentDate with
          | some p, some d => (st, [mkPlacementRecord st d p])
          | _, _ => (st, [])

def parse_course_data (text : List Char) : List ActivityRecord :=
  ((splitNl text).foldl
    (fun acc l =>
      let sr := processLine acc.1 l
      (sr.1, acc.2 ++ sr.2))
    (initState, [])).2

end backup

/-! ## ChartGenerator (chart_generator.py)

The loaded dataframe: one row per activity with a parsed calendar date
(modelled as a day ordinal `Nat`), the course name, and the numeric XP
value `xp_numeric` (a pandas float column, modelled as `Rat`). -/

structure ChartRow where
  date : Nat
  course : String
  xp : Rat
deriving DecidableEq, Repr

/-- The distinct group keys of a pandas `groupby`, in ascending order. -/
def sortedKeys {α : Type} [DecidableEq α] (r : α → α → Prop) [DecidableRel r]
    (l : List α) : List α :=
  List.insertionSort r l.dedup

/-- `_calculate_cumulative_xp`, grouping step: `groupby('date')['xp_numeric']
.sum()` followed by `sort_values('date')` — the per-date sums listed in
ascending date order. -/
def dailyXpSeries (rs : List ChartRow) : List Rat :=
  (sortedKeys (· ≤ ·) (rs.map (·.date))).map
    (fun d => ((rs.filter (fun r => r.date = d)).map (·.xp)).sum)

/-- `cumsum` over the date-sorted daily sums: the cumulative-XP series. -/
def cumulativeXp (rs : List ChartRow) : List Rat :=
  ((dailyXpSeries rs).scanl (· + ·) 0).tail

/-! ### Streaks (`_calculate_longest_streak`, `_calculate_current_streak`) -/

def minDate (rs : List ChartRow) : Nat := ((rs.map (·.date)).min?).getD 0

def maxDate (rs : List ChartRow) : Nat := ((rs.map (·.date)).max?).getD 0

/-- `activity_dict.get(day, 0) > 0`: some record falls on the day. -/
def hasAct (rs : List ChartRow) (d : Nat) : Bool := rs.any (fun r => r.date = d)

/-- `pd.date_range(start=min_date, end=max_date, freq='D')`. -/
def calRange (rs : List ChartRow) : List Nat :=
  List.range' (minDate rs) (maxDate rs - minDate rs + 1)

/-- The longest-streak loop body: carries `(max_streak, current_streak)`. -/
def streakStep (act : Nat → Bool) (mc : Nat × Nat) (d : Nat) : Nat × Nat :=
  if act d then (max mc.1 (mc.2 + 1), mc.2 + 1) else (mc.1, 0)

/-- `_calculate_longest_streak(...)['length']` (the method ignores its
`daily_df` argument and rescans `self.df`); `0` on an empty dataframe. -/
def longestStreak (rs : List ChartRow) : Nat :=
  if rs = [] then 0
  else ((calRange rs).foldl (streakStep (hasAct rs)) (0, 0)).1

/-- `_calculate_current_streak`: iterate the calendar range backwards from
the last day, stopping at the first day without activity.  Returns
(length, start_date, end_date); `end_date` is always the maximum date. -/
def currentStreakData (rs : List ChartRow) : Nat × Option Nat × Option Nat :=
  if rs = [] then (0, none, none)
  else
    let run := ((calRange rs).reverse.takeWhile (hasAct rs))
    (run.length, run.getLast?, some (maxDate rs))

def currentStreak (rs : List ChartRow) : Nat := (currentStreakData rs).1

/-! ### Recent trend (`_calculate_recent_trend`) -/

structure TrendResult where
  change_percent : Rat
  direction : String
  recent_average : Option Rat
  previous_average : Option Rat
deriving DecidableEq, Repr

/-- pandas `Series.mean()`: sum divided by length. -/
def listMean (l : List Rat) : Rat := l.sum / l.length

/-- `daily_df.tail(7)`. -/
def last7 (l : List Rat) : List Rat := l.drop (l.length - 7)

/-- `daily_df.iloc[-14:-7]`. -/
def prev7 (l : List Rat) : List Rat := (l.drop (l.length - 14)).take 7

/-- `_calculate_recent_trend` on the daily `xp_numeric` series. -/
def calcRecentTrend (daily : List Rat) : TrendResult :=
  if daily.length < 14 then ⟨0, "insufficient_data", none, none⟩
  else
    let r := listMean (last7 daily)
    let p := listMean (prev7 daily)
    let change : Rat := if p = 0 then (if r > 0 then 100 else 0) else (r - p) / p * 100
    ⟨change,
     if change > 0 then "increasing" else if change < 0 then "decreasing" else "stable",
     some r, some p⟩

/-! ### Heatmap color levels (`_calculate_learning_heatmap_data`) -/

/-- The inner `get_color_level` function applied to each daily XP value. -/
def get_color_level (xp : Rat) : Nat :=
  if xp = 0 then 0
  else if xp < 15 then 1
  else if xp < 30 then 2
  else 3

/-- The returned `color_levels` table (keys are the level digits as strings). -/
def color_levels : List (String × String) :=
  [("0", "#ebedf0"), ("1", "#9be9a8"), ("2", "#40c463"), ("3", "#30a14e")]

/-! ### Dominant course per day

`groupby(['date', 'Course'])` lists each day's courses in ascending name
order (pandas sorts group keys); `idxmax` picks the first row attaining
the group maximum, and the same code appears verbatim in
`_calculate_cumulative_xp_with_dominant_course` and
`_calculate_daily_xp_with_dominant_course`. -/

/-- The lexicographic (code-point) order Python uses on `str`; stated on
the underlying character list so that it is kernel-computable. -/
def courseLe (a b : String) : Prop := a.data ≤ b.data

instance : DecidableRel courseLe :=
  fun a b => inferInstanceAs (Decidable (a.data ≤ b.data))

instance : IsTrans String courseLe :=
  ⟨fun _ _ _ h1 h2 => le_trans h1 h2⟩

instance : IsTotal String courseLe :=
  ⟨fun a b => le_total a.data b.data⟩

instance : IsAntisymm String courseLe :=
  ⟨fun a b h1 h2 => by
    cases a with
    | mk dataA => cases b with
      | mk dataB => exact congrArg String.mk (le_antisymm h1 h2)⟩

/-- The day's courses in the sorted order produced by the grouping. -/
def coursesOnDay (rs : List ChartRow) (d : Nat) : List String :=
  sortedKeys courseLe ((rs.filter (fun r => r.date = d)).map (·.course))

/-- The day's summed XP for one course. -/
def courseXpOn (rs : List ChartRow) (d : Nat) (c : String) : Rat :=
  ((rs.filter (fun r => r.date = d && r.course = c)).map (·.xp)).sum

/-- `Series.idxmax`: the first entry attaining the maximum value. -/
def pickFirstMax : List (String × Rat) → Option (String × Rat)
  | [] => none
  | x :: xs => some (xs.foldl (fun best y => if y.2 > best.2 then y else best) x)

/-- Dominant course of a day in
`_calculate_cumulative_xp_with_dominant_course`. -/
def dominantCourseCumulative (rs : List ChartRow) (d : Nat) : Option String :=
  (pickFirstMax ((coursesOnDay rs d).map (fun c => (c, courseXpOn rs d c)))).map (·.1)

/-- Dominant course of a day in `_calculate_daily_xp_with_dominant_course`
(identical grouping and `idxmax` code). -/
def dominantCourseDaily (rs : List ChartRow) (d : Nat) : Option String :=
  (pickFirstMax ((coursesOnDay rs d).map (fun c => (c, courseXpOn rs d c)))).map (·.1)

/-! ### The statistics dictionary and the `stats` CLI command

`get_xp_statistics` (chart_generator.py) builds a dict with exactly these
keys; the `stats` subcommand (main.py) formats the values it looks up, in
source order.  A missing key raises `KeyError`, which the command's broad
`except` reports as an error message instead of the statistics. -/

def get_xp_statistics_keys : List String :=
  ["total_xp", "average_daily_xp", "longest_streak", "current_streak",
   "min_daily_xp", "total_days", "active_days", "date_range",
   "recent_trend", "task_type_stats"]

/-- The keys `stats` subscripts on the returned dict, in evaluation order. -/
def stats_command_keys : List String :=
  ["total_xp", "average_daily_xp", "max_daily_xp", "min_daily_xp",
   "active_days", "total_days", "date_range", "recent_trend"]

/-- First key the command reads that the dict does not carry (the key whose
subscript raises `KeyError`), if any. -/
def firstMissingKey (reads dict : List String) : Option String :=
  reads.find? (fun k => !(dict.contains k))

/-! ### `_calculate_statistics` (course_parser.py, JSON export)

Only the scalar aggregates the claims concern; the empty-input branch
returns an empty dict, modelled as `none`. -/

def total_xp_of (data : List ActivityRecord) : Nat := (data.map (·.xpEarned)).sum

def total_possible_of (data : List ActivityRecord) : Nat := (data.map (·.xpPossible)).sum

/-- Round to nearest integer, ties to even — the rounding of Python's
`format(x, '.1f')` applied to the exact value. -/
def roundHalfEven (q : Rat) : Int :=
  let f : Int := Int.fdiv q.num (q.den : Int)
  let r : Rat := q - (f : Rat)
  if r < 1/2 then f
  else if r > 1/2 then f + 1
  else if f % 2 = 0 then f else f + 1

/-- `f"{q:.1f}%"` for a non-negative value. -/
def fmtPct (q : Rat) : String :=
  let n := (roundHalfEven (q * 10)).toNat
  natToStr (n / 10) ++ "." ++ natToStr (n % 10) ++ "%"

/-- The `completion_rate` entry of `_calculate_statistics`:
`f"{(total_xp/total_possible*100):.1f}%" if total_possible > 0 else '0%'`;
`none` when the record list is empty (the method returns `{}`). -/
def completion_rate_of (data : List ActivityRecord) : Option String :=
  if data = [] then none
  else some (if 0 < total_possible_of data then
      fmtPct ((total_xp_of data : Rat) / (total_possible_of data : Rat) * 100)
    else "0%")

end MALog

open MALog

/-! # Claims -/

/-- Claim C8: the primary parser (course_parser.py) and the legacy backup
parser (course_parser_backup.py) return identical lists of activity
records on every extracted PDF text: same record count, same field values,
same order.  The two `parse_course_data` bodies are byte-identical, so the
embeddings are definitionally equal. -/
theorem claim_C8_parsers_equivalent :
    ∀ text : List Char, backup.parse_course_data text = parse_course_data text :=
  fun _ => rfl

/-- Claim C3: the `stats` CLI subcommand looks up the key
`"max_daily_xp"` in the dictionary returned by `get_xp_statistics`, but
that dictionary never carries this key, so on every non-empty snapshot the
command raises `KeyError('max_daily_xp')` (reported as an error) instead
of printing the statistics; `"max_daily_xp"` is the first missing lookup. -/
theorem claim_C3_stats_key_missing :
    stats_command_keys.contains "max_daily_xp" = true ∧
    get_xp_statistics_keys.contains "max_daily_xp" = false ∧
    firstMissingKey stats_command_keys get_xp_statistics_keys = some "max_daily_xp" := by
  refine ⟨by decide, by decide, by decide⟩

/-- Claim C6: the heatmap color level of a daily XP value `x` is 0 when
`x = 0`, 1 when `0 < x < 15`, 2 when `15 ≤ x < 30`, 3 when `x ≥ 30`
(strict thresholds at 15 and 30); the four levels map to the fixed colors
`#ebedf0`, `#9be9a8`, `#40c463`, `#30a14e`; in particular XP 14 gives
level 1, 15 and 29 give level 2, 30 gives level 3. -/
theorem claim_C6_heatmap_levels :
    (∀ x : Rat, x = 0 → get_color_level x = 0) ∧
    (∀ x : Rat, 0 < x → x < 15 → get_color_level x = 1) ∧
    (∀ x : Rat, 15 ≤ x → x < 30 → get_color_level x = 2) ∧
    (∀ x : Rat, 30 ≤ x → get_color_level x = 3) ∧
    color_levels.lookup "0" = some "#ebedf0" ∧
    color_levels.lookup "1" = some "#9be9a8" ∧
    color_levels.lookup "2" = some "#40c463" ∧
    color_levels.lookup "3" = some "#30a14e" ∧
    get_color_level 0 = 0 ∧ get_color_level 14 = 1 ∧ get_color_level 15 = 2 ∧
    get_color_level 29 = 2 ∧ get_color_level 30 = 3 := by
  refine ⟨?_, ?_, ?_, ?_, by decide, by decide, by decide, by decide,
    by decide, by decide, by decide, by decide, by decide⟩
  · intro x hx
    simp [get_color_level, hx]
  · intro x hx0 hx15
    rw [get_color_level, if_neg (by exact hx0.ne'), if_pos hx15]
  · intro x hx15 hx30
    rw [get_color_level, if_neg (by intro h; rw [h] at hx15; norm_num at hx15),
      if_neg (not_lt.2 hx15), if_pos hx30]
  · intro x hx30
    rw [get_color_level, if_neg (by intro h; rw [h] at hx30; norm_num at hx30),
      if_neg (by intro h; linarith), if_neg (by intro h; linarith)]

/-- Witness for C6 at concrete inputs inside each interval. -/
theorem claim_C6_heatmap_levels_witness :
    get_color_level 7 = 1 ∧ get_color_level 20 = 2 ∧ get_color_level 31 = 3 :=
  ⟨claim_C6_heatmap_levels.2.1 7 (by norm_num) (by norm_num),
   claim_C6_heatmap_levels.2.2.1 20 (by norm_num) (by norm_num),
   claim_C6_heatmap_levels.2.2.2.1 31 (by norm_num)⟩

/-- Claim C1 (amended): `parse_course_data` is a line-by-line state
machine.  A line whose stripped text matches the date-header pattern sets
the current date to `"YYYY-MM-DD"` (month via the fixed table, defaulting
to `"01"` for unknown names, day zero-padded) and the daily total to `N`,
emitting no record.  A non-date line recognized as boilerplate (starting
with `Activity Log`, containing `Student ID:`, `Start Date:` or
`End Date:`, or equal to the column-header line) is skipped even when it
matches the task pattern.  Any other line matching the regular task
pattern emits exactly one record — keyword task, trimmed description,
integer XP values, `earned/possible` detail, carried date and daily
total — if and only if a current date has been established; before any
date header it emits nothing. -/
theorem claim_C1_parser_state_machine (st : ParseState) (l : List Char) :
    (∀ g, dateSearch (stripL l) = some g →
      processLine st l =
        (⟨some (mkDate g.month g.day g.year), some (digitsToNat g.total)⟩, [])) ∧
    (dateSearch (stripL l) = none → isBoilerplate (stripL l) = true →
      processLine st l = (st, [])) ∧
    (∀ r, dateSearch (stripL l) = none → isBoilerplate (stripL l) = false →
      regularSearch (stripL l) = some r →
      (∀ d, st.currentDate = some d →
        processLine st l = (st,
          [{ date := d
             course := extract_course_name r.course
             task := String.mk (capitalizeL r.keyword)
             description := String.mk (stripL r.desc)
             xpEarned := digitsToNat r.earned
             xpPossible := digitsToNat r.possible
             xpDetail := String.mk r.earned ++ "/" ++ String.mk r.possible
             dailyTotal := st.dailyTotal }])) ∧
      (st.currentDate = none → processLine st l = (st, []))) ∧
    (∀ m, month_map.lookup m = none → month_to_num m = "01") := by
  refine ⟨?_, ?_, ?_, ?_⟩
  · intro g hg
    by_cases he : (stripL l).isEmpty
    · exfalso
      rw [List.isEmpty_iff] at he
      rw [he] at hg
      exact Option.noConfusion hg
    · simp only [processLine, if_neg he, hg]
  · intro hd hb
    by_cases he : (stripL l).isEmpty
    · simp only [processLine, if_pos he]
    · simp only [processLine, if_neg he, hd, hb, if_true]
  · intro r hd hb hr
    have he : ¬ (stripL l).isEmpty := by
      intro he
      rw [List.isEmpty_iff] at he
      rw [he] at hr
      exact Option.noConfusion hr
    constructor
    · intro d hdate
      simp only [processLine, if_neg he, hd, hb, hr, hdate, Bool.false_eq_true, if_false]
      rfl
    · intro hdate
      cases hps : placementSearch (stripL l) with
      | none =>
        simp only [processLine, if_neg he, hd, hb, hr, hdate, hps,
          Bool.false_eq_true, if_false]
      | some p =>
        simp only [processLine, if_neg he, hd, hb, hr, hdate, hps,
          Bool.false_eq_true, if_false]
  · intro m hm
    unfold month_to_num
    rw [hm]
    rfl

/-- Counterexample for C1 as stated: after a date header is established,
the line `Student ID: A Lesson b 5/10 XP` matches the regular task
pattern, yet the parser emits no record for it — it is discarded by the
boilerplate filter, which the claim does not account for. -/
theorem claim_C1_boilerplate_counterexample :
    (processLine initState "Monday, March 3rd, 2024 (42 XP)".data).1.currentDate =
      some "2024-03-03" ∧
    (regularSearch (stripL "Student ID: A Lesson b 5/10 XP".data)).isSome = true ∧
    parse_course_data
      "Monday, March 3rd, 2024 (42 XP)\nStudent ID: A Lesson b 5/10 XP".data = [] := by
  exact ⟨by decide, by decide, by decide⟩

/-- Witness for C1 (amended) at the date-header and task lines of the
spec's own examples. -/
theorem claim_C1_parser_state_machine_witness :
    processLine initState "Monday, March 3rd, 2024 (42 XP)".data =
      (⟨some "2024-03-03", some 42⟩, []) ∧
    processLine ⟨some "2024-03-03", some 42⟩ "4th Grade Math Quiz Quiz 1 18/15 XP".data =
      (⟨some "2024-03-03", some 42⟩,
        [{ date := "2024-03-03"
           course := "4Th Grade Math"
           task := "Quiz"
           description := "Quiz 1"
           xpEarned := 18
           xpPossible := 15
           xpDetail := "18/15"
           dailyTotal := some 42 }]) ∧
    processLine initState "4th Grade Math Quiz Quiz 1 18/15 XP".data =
      (initState, []) := by
  refine ⟨?_, ?_, ?_⟩
  · have h := (claim_C1_parser_state_machine initState
      "Monday, March 3rd, 2024 (42 XP)".data).1
      ⟨"Monday".data, "March".data, "3".data, "2024".data, "42".data⟩ (by decide)
    rw [h]
    decide
  · have h := ((claim_C1_parser_state_machine ⟨some "2024-03-03", some 42⟩
      "4th Grade Math Quiz Quiz 1 18/15 XP".data).2.2.1
      ⟨"4th Grade Math".data, "Quiz".data, "Quiz 1".data, "18".data, "15".data⟩
      (by decide) (by decide) (by decide)).1 "2024-03-03" rfl
    rw [h]
    decide
  · exact ((claim_C1_parser_state_machine initState
      "4th Grade Math Quiz Quiz 1 18/15 XP".data).2.2.1
      ⟨"4th Grade Math".data, "Quiz".data, "Quiz 1".data, "18".data, "15".data⟩
      (by decide) (by decide) (by decide)).2 rfl

/-- Sorting the distinct keys is invariant under permutation of the input. -/
theorem sortedKeys_perm {α : Type} (r : α → α → Prop) [DecidableEq α] [DecidableRel r]
    [IsTotal α r] [IsTrans α r] [IsAntisymm α r] {l l' : List α} (h : l.Perm l') :
    sortedKeys r l = sortedKeys r l' := by
  unfold sortedKeys
  exact List.eq_of_perm_of_sorted
    ((List.perm_insertionSort r _).trans (h.dedup.trans (List.perm_insertionSort r _).symm))
    (List.sorted_insertionSort r _) (List.sorted_insertionSort r _)

theorem dailyXpSeries_perm {rs rs' : List ChartRow} (h : rs.Perm rs') :
    dailyXpSeries rs = dailyXpSeries rs' := by
  unfold dailyXpSeries
  rw [sortedKeys_perm (· ≤ ·) (h.map (·.date))]
  apply List.map_congr_left
  intro d _
  exact ((h.filter _).map _).sum_eq

theorem dailyXpSeries_nonneg {rs : List ChartRow} (h : ∀ r ∈ rs, 0 ≤ r.xp) :
    ∀ x ∈ dailyXpSeries rs, 0 ≤ x := by
  intro x hx
  unfold dailyXpSeries at hx
  obtain ⟨d, _, rfl⟩ := List.mem_map.1 hx
  apply List.sum_nonneg
  intro y hy
  obtain ⟨r, hr, rfl⟩ := List.mem_map.1 hy
  exact h r (List.mem_of_mem_filter hr)

/-- A running sum of non-negative values is non-decreasing. -/
theorem chain_le_scanl_add (l : List Rat) : ∀ a : Rat, (∀ x ∈ l, 0 ≤ x) →
    List.Chain' (· ≤ ·) (l.scanl (· + ·) a) := by
  induction l with
  | nil => intro a _; simp
  | cons x xs ih =>
    intro a hx
    rw [List.scanl_cons, List.singleton_append, List.chain'_cons']
    constructor
    · intro y hy
      have hh : (List.scanl (· + ·) (a + x) xs).head? = some (a + x) := by
        cases xs <;> simp [List.scanl]
      rw [hh, Option.mem_some_iff] at hy
      subst hy
      exact le_add_of_nonneg_right (hx x (List.mem_cons_self x xs))
    · exact ih (a + x) (fun z hz => hx z (List.mem_cons_of_mem _ hz))

/-- Claim C2: on records with non-negative XP values, the cumulative-XP
series is non-decreasing and is unchanged by any permutation of the input
records — the daily XP is grouped by date and sorted ascending before the
prefix sum. -/
theorem claim_C2_cumulative_xp (rs rs' : List ChartRow) (hperm : rs.Perm rs')
    (hnn : ∀ r ∈ rs, 0 ≤ r.xp) :
    cumulativeXp rs = cumulativeXp rs' ∧ List.Chain' (· ≤ ·) (cumulativeXp rs) := by
  constructor
  · unfold cumulativeXp
    rw [dailyXpSeries_perm hperm]
  · exact (chain_le_scanl_add _ 0 (dailyXpSeries_nonneg hnn)).tail

/-- Witness for C2: two orderings of the same two-day dataset. -/
theorem claim_C2_cumulative_xp_witness :
    cumulativeXp [⟨1, "A", 5⟩, ⟨0, "B", 3⟩] = cumulativeXp [⟨0, "B", 3⟩, ⟨1, "A", 5⟩] ∧
    List.Chain' (· ≤ ·) (cumulativeXp [⟨1, "A", 5⟩, ⟨0, "B", 3⟩]) :=
  claim_C2_cumulative_xp _ _ (by decide) (by decide)

/-! ### Streak helper lemmas -/

theorem hasAct_iff (rs : List ChartRow) (d : Nat) :
    hasAct rs d = true ↔ ∃ r ∈ rs, r.date = d := by
  simp [hasAct]

theorem mem_le_maxDate (rs : List ChartRow) (r : ChartRow) (hr : r ∈ rs) :
    r.date ≤ maxDate rs := by
  unfold maxDate
  cases hm : (rs.map (·.date)).max? with
  | none =>
    rw [List.max?_eq_none_iff, List.map_eq_nil_iff] at hm
    rw [hm] at hr
    exact absurd hr (List.not_mem_nil r)
  | some m =>
    exact (List.max?_le_iff (fun _ _ _ => max_le_iff) hm).1 (le_refl m) _
      (List.mem_map_of_mem _ hr)

theorem minDate_le_mem (rs : List ChartRow) (r : ChartRow) (hr : r ∈ rs) :
    minDate rs ≤ r.date := by
  unfold minDate
  cases hm : (rs.map (·.date)).min? with
  | none =>
    rw [List.min?_eq_none_iff, List.map_eq_nil_iff] at hm
    rw [hm] at hr
    exact absurd hr (List.not_mem_nil r)
  | some m =>
    exact (List.le_min?_iff (fun _ _ _ => le_min_iff) hm).1 (le_refl m) _
      (List.mem_map_of_mem _ hr)

theorem maxDate_act (rs : List ChartRow) (h : rs ≠ []) :
    hasAct rs (maxDate rs) = true := by
  have hne : (rs.map (·.date)).max?.isSome = true := by
    cases hm : (rs.map (·.date)).max? with
    | none =>
      rw [List.max?_eq_none_iff, List.map_eq_nil_iff] at hm
      exact absurd hm h
    | some m => rfl
  obtain ⟨m, hm⟩ := Option.isSome_iff_exists.1 hne
  have hmem := List.max?_mem (fun a b => max_choice a b) hm
  obtain ⟨r, hr, hrd⟩ := List.mem_map.1 hmem
  refine (hasAct_iff rs _).2 ⟨r, hr, ?_⟩
  unfold maxDate
  rw [hm, hrd]
  rfl

theorem hasAct_bounds (rs : List ChartRow) (d : Nat) (ha : hasAct rs d = true) :
    minDate rs ≤ d ∧ d ≤ maxDate rs := by
  obtain ⟨r, hr, hrd⟩ := (hasAct_iff rs d).1 ha
  rw [← hrd]
  exact ⟨minDate_le_mem rs r hr, mem_le_maxDate rs r hr⟩

theorem minDate_le_maxDate (rs : List ChartRow) (h : rs ≠ []) :
    minDate rs ≤ maxDate rs := by
  obtain ⟨r, hr⟩ := List.exists_mem_of_ne_nil rs h
  exact le_trans (minDate_le_mem rs r hr) (mem_le_maxDate rs r hr)

theorem streak_foldl_fst_ge (act : Nat → Bool) (l : List Nat) :
    ∀ mc : Nat × Nat, mc.1 ≤ (l.foldl (streakStep act) mc).1 := by
  induction l with
  | nil => intro mc; exact le_refl _
  | cons d l ih =>
    intro mc
    rw [List.foldl_cons]
    refine le_trans ?_ (ih (streakStep act mc d))
    unfold streakStep
    by_cases hd : act d = true
    · rw [if_pos hd]; exact le_max_left _ _
    · rw [if_neg hd]

theorem streak_foldl_all_active (act : Nat → Bool) :
    ∀ (v : List Nat) (mc : Nat × Nat), v ≠ [] → (∀ x ∈ v, act x = true) →
      mc.2 + v.length ≤ (v.foldl (streakStep act) mc).1 := by
  intro v
  induction v with
  | nil => intro mc hne _; exact absurd rfl hne
  | cons d v ih =>
    intro mc _ hall
    rw [List.foldl_cons]
    have hd : act d = true := hall d (List.mem_cons_self d v)
    have hstep : streakStep act mc d = (max mc.1 (mc.2 + 1), mc.2 + 1) := by
      unfold streakStep; rw [if_pos hd]
    rw [hstep]
    by_cases hv : v = []
    · rw [hv]
      show mc.2 + 1 ≤ max mc.1 (mc.2 + 1)
      exact le_max_right _ _
    · have h1 := ih (max mc.1 (mc.2 + 1), mc.2 + 1) hv
        (fun x hx => hall x (List.mem_cons_of_mem _ hx))
      simp only [List.length_cons]
      omega

theorem run_le_streak_foldl (act : Nat → Bool) (u v w : List Nat) (mc : Nat × Nat)
    (hv : ∀ x ∈ v, act x = true) :
    v.length ≤ ((u ++ (v ++ w)).foldl (streakStep act) mc).1 := by
  rw [List.foldl_append, List.foldl_append]
  by_cases hvnil : v = []
  · rw [hvnil]; exact Nat.zero_le _
  · refine le_trans ?_ (streak_foldl_fst_ge act w _)
    have h1 := streak_foldl_all_active act v (u.foldl (streakStep act) mc) hvnil hv
    omega

theorem streak_foldl_cases (act : Nat → Bool) :
    ∀ (l : List Nat) (mc : Nat × Nat),
      (l.foldl (streakStep act) mc).1 = mc.1 ∨
      (∃ v w, l = v ++ w ∧ (∀ x ∈ v, act x = true) ∧
        (l.foldl (streakStep act) mc).1 = mc.2 + v.length) ∨
      (∃ u v w, l = u ++ (v ++ w) ∧ (∀ x ∈ v, act x = true) ∧
        (l.foldl (streakStep act) mc).1 = v.length) := by
  intro l
  induction l with
  | nil => intro mc; exact Or.inl rfl
  | cons d l ih =>
    intro mc
    rw [List.foldl_cons]
    by_cases hd : act d = true
    · have hstep : streakStep act mc d = (max mc.1 (mc.2 + 1), mc.2 + 1) := by
        unfold streakStep; rw [if_pos hd]
      rw [hstep]
      rcases ih (max mc.1 (mc.2 + 1), mc.2 + 1) with h | h | h
      · rcases Nat.le_total mc.1 (mc.2 + 1) with hle | hle
        · refine Or.inr (Or.inl ⟨[d], l, rfl, ?_, ?_⟩)
          · intro x hx
            rw [List.mem_singleton] at hx
            rw [hx]; exact hd
          · rw [h]
            show max mc.1 (mc.2 + 1) = mc.2 + [d].length
            rw [Nat.max_eq_right hle]
            rfl
        · exact Or.inl (by rw [h]; exact Nat.max_eq_left hle)
      · obtain ⟨v, w, hlvw, hva, hres⟩ := h
        refine Or.inr (Or.inl ⟨d :: v, w, by rw [hlvw]; rfl, ?_, ?_⟩)
        · intro x hx
          rcases List.mem_cons.1 hx with h0 | h0
          · rw [h0]; exact hd
          · exact hva x h0
        · rw [hres, List.length_cons]
          show mc.2 + 1 + v.length = mc.2 + (v.length + 1)
          omega
      · obtain ⟨u, v, w, hlvw, hva, hres⟩ := h
        exact Or.inr (Or.inr ⟨d :: u, v, w, by rw [hlvw]; rfl, hva, hres⟩)
    · have hstep : streakStep act mc d = (mc.1, 0) := by
        unfold streakStep; rw [if_neg hd]
      rw [hstep]
      rcases ih (mc.1, 0) with h | h | h
      · exact Or.inl h
      · obtain ⟨v, w, hlvw, hva, hres⟩ := h
        refine Or.inr (Or.inr ⟨[d], v, w, by rw [hlvw]; rfl, hva, ?_⟩)
        rw [hres]
        exact Nat.zero_add _
      · obtain ⟨u, v, w, hlvw, hva, hres⟩ := h
        exact Or.inr (Or.inr ⟨d :: u, v, w, by rw [hlvw]; rfl, hva, hres⟩)

theorem range'_eq_append :
    ∀ (u : List Nat) (s n : Nat) (rest : List Nat), List.range' s n = u ++ rest →
      u = List.range' s u.length ∧
      rest = List.range' (s + u.length) (n - u.length) := by
  intro u
  induction u with
  | nil =>
    intro s n rest h
    refine ⟨rfl, ?_⟩
    rw [List.nil_append] at h
    rw [← h]
    congr 1
  | cons a u ih =>
    intro s n rest h
    cases n with
    | zero =>
      rw [show List.range' s 0 = [] from rfl] at h
      exact absurd h.symm (List.cons_ne_nil a (u ++ rest))
    | succ n' =>
      rw [List.range'_succ] at h
      have h1 : s = a := (List.cons.injEq _ _ _ _ ▸ h).1
      have h2 : List.range' (s + 1) n' = u ++ rest := (List.cons.injEq _ _ _ _ ▸ h).2
      obtain ⟨hu, hrest⟩ := ih (s + 1) n' rest h2
      constructor
      · rw [List.length_cons, List.range'_succ, ← h1, ← hu]
      · rw [hrest, List.length_cons]
        congr 1 <;> omega

/-- Any `n` consecutive calendar days that all carry activity give a lower
bound for the longest-streak scan. -/
theorem run_le_longestStreak (rs : List ChartRow) (h : rs ≠ []) (d n : Nat)
    (hrun : ∀ i < n, hasAct rs (d + i) = true) : n ≤ longestStreak rs := by
  cases n with
  | zero => exact Nat.zero_le _
  | succ n' =>
    have hd0 : hasAct rs d = true := by
      have := hrun 0 (Nat.succ_pos n')
      rwa [Nat.add_zero] at this
    have hdn : hasAct rs (d + n') = true := hrun n' (Nat.lt_succ_self n')
    have hb0 := hasAct_bounds rs d hd0
    have hbn := hasAct_bounds rs (d + n') hdn
    unfold longestStreak
    rw [if_neg h]
    unfold calRange
    have hL : maxDate rs - minDate rs + 1 =
        (d - minDate rs) + ((n' + 1) + (maxDate rs - minDate rs + 1
          - (d - minDate rs) - (n' + 1))) := by omega
    have hsplit : List.range' (minDate rs) (maxDate rs - minDate rs + 1) =
        List.range' (minDate rs) (d - minDate rs) ++
          (List.range' d (n' + 1) ++
            List.range' (d + (n' + 1)) (maxDate rs - minDate rs + 1
              - (d - minDate rs) - (n' + 1))) := by
      have e1 := List.range'_append d (n' + 1)
        (maxDate rs - minDate rs + 1 - (d - minDate rs) - (n' + 1)) 1
      have e2 := List.range'_append (minDate rs) (d - minDate rs)
        ((n' + 1) + (maxDate rs - minDate rs + 1 - (d - minDate rs) - (n' + 1))) 1
      rw [show d + 1 * (n' + 1) = d + (n' + 1) by omega] at e1
      rw [show minDate rs + 1 * (d - minDate rs) = d by omega] at e2
      have e1' : List.range' d (n' + 1) ++
          List.range' (d + (n' + 1))
            (maxDate rs - minDate rs + 1 - (d - minDate rs) - (n' + 1)) =
          List.range' d ((n' + 1) +
            (maxDate rs - minDate rs + 1 - (d - minDate rs) - (n' + 1))) := by
        rw [e1]
        congr 1
        omega
      rw [e1', e2]
      congr 1
      omega
    rw [hsplit]
    have := run_le_streak_foldl (hasAct rs) (List.range' (minDate rs) (d - minDate rs))
      (List.range' d (n' + 1))
      (List.range' (d + (n' + 1)) (maxDate rs - minDate rs + 1
        - (d - minDate rs) - (n' + 1))) (0, 0)
      (fun x hx => by
        obtain ⟨i, hi, hxi⟩ := List.mem_range'.1 hx
        rw [hxi, show 1 * i = i from Nat.one_mul i]
        exact hrun i hi)
    rwa [List.length_range'] at this

/-- The longest-streak scan value is attained by a run of consecutive
active days. -/
theorem longestStreak_attained (rs : List ChartRow) (h : rs ≠ []) :
    ∃ d, ∀ i < longestStreak rs, hasAct rs (d + i) = true := by
  unfold longestStreak
  rw [if_neg h]
  rcases streak_foldl_cases (hasAct rs) (calRange rs) (0, 0) with hc | hc | hc
  · refine ⟨0, ?_⟩
    intro i hi
    rw [hc] at hi
    exact absurd hi (Nat.not_lt_zero i)
  · obtain ⟨v, w, hsplit, hva, hres⟩ := hc
    have hv := (range'_eq_append v (minDate rs) (maxDate rs - minDate rs + 1) w hsplit).1
    refine ⟨minDate rs, ?_⟩
    intro i hi
    rw [hres] at hi
    apply hva
    rw [hv, List.mem_range']
    exact ⟨i, by omega, by omega⟩
  · obtain ⟨u, v, w, hsplit, hva, hres⟩ := hc
    have h1 := range'_eq_append u (minDate rs) (maxDate rs - minDate rs + 1) (v ++ w) hsplit
    have h2 := range'_eq_append v (minDate rs + u.length)
      (maxDate rs - minDate rs + 1 - u.length) w h1.2.symm
    refine ⟨minDate rs + u.length, ?_⟩
    intro i hi
    rw [hres] at hi
    apply hva
    rw [h2.1, List.mem_range']
    exact ⟨i, hi, by omega⟩

/-- Reversed descending calendar list. -/
def descList : Nat → Nat → List Nat
  | _, 0 => []
  | a, k + 1 => a :: descList (a - 1) k

theorem descList_concat (k : Nat) : ∀ a, descList a (k + 1) = descList a k ++ [a - k] := by
  induction k with
  | zero => intro a; simp [descList]
  | succ k ih =>
    intro a
    show a :: descList (a - 1) (k + 1) = (a :: descList (a - 1) k) ++ [a - (k + 1)]
    rw [ih (a - 1), List.cons_append]
    congr 3
    omega

theorem reverse_range'_desc : ∀ (n s : Nat),
    (List.range' s n).reverse = descList (s + n - 1) n := by
  intro n
  induction n with
  | zero => intro s; rfl
  | succ n ih =>
    intro s
    rw [List.range'_succ, List.reverse_cons, ih (s + 1)]
    rw [show s + (n + 1) - 1 = s + n by omega, descList_concat]
    congr 2
    · omega
    · omega

theorem takeWhile_descList_spec (act : Nat → Bool) : ∀ (k a : Nat),
    (∀ i < ((descList a k).takeWhile act).length, act (a - i) = true) ∧
    (((descList a k).takeWhile act).length = k ∨
      (((descList a k).takeWhile act).length < k ∧
        act (a - ((descList a k).takeWhile act).length) = false)) := by
  intro k
  induction k with
  | zero =>
    intro a
    exact ⟨fun i hi => absurd hi (by simp [descList]), Or.inl (by simp [descList])⟩
  | succ k ih =>
    intro a
    simp only [descList]
    by_cases ha : act a = true
    · have ht : (a :: descList (a - 1) k).takeWhile act =
          a :: (descList (a - 1) k).takeWhile act := by
        simp [List.takeWhile_cons, ha]
      obtain ⟨ih1, ih2⟩ := ih (a - 1)
      constructor
      · intro i hi
        rw [ht, List.length_cons] at hi
        cases i with
        | zero => rw [Nat.sub_zero]; exact ha
        | succ j =>
          have hj := ih1 j (by omega)
          have he : a - 1 - j = a - (j + 1) := by omega
          rw [← he]
          exact hj
      · rw [ht, List.length_cons]
        rcases ih2 with h0 | ⟨h1, h2⟩
        · exact Or.inl (by omega)
        · refine Or.inr ⟨by omega, ?_⟩
          have he : a - 1 - ((descList (a - 1) k).takeWhile act).length =
              a - (((descList (a - 1) k).takeWhile act).length + 1) := by omega
          rw [← he]
          exact h2
    · have hf : act a = false := by
        cases hv : act a
        · rfl
        · exact absurd hv ha
      have ht : (a :: descList (a - 1) k).takeWhile act = [] := by
        simp [List.takeWhile_cons, hf]
      constructor
      · intro i hi
        rw [ht] at hi
        exact absurd hi (by simp)
      · refine Or.inr ⟨by rw [ht]; simp, ?_⟩
        rw [ht]
        show act (a - 0) = false
        rw [Nat.sub_zero]
        exact hf

theorem calRange_reverse (rs : List ChartRow) (h : rs ≠ []) :
    (calRange rs).reverse = descList (maxDate rs) (maxDate rs - minDate rs + 1) := by
  unfold calRange
  rw [reverse_range'_desc]
  congr 1
  have := minDate_le_maxDate rs h
  omega

theorem currentStreak_spec (rs : List ChartRow) (h : rs ≠ []) :
    (∀ i < currentStreak rs, hasAct rs (maxDate rs - i) = true) ∧
    (currentStreak rs = maxDate rs - minDate rs + 1 ∨
      hasAct rs (maxDate rs - currentStreak rs) = false) := by
  have hcur : currentStreak rs =
      ((descList (maxDate rs) (maxDate rs - minDate rs + 1)).takeWhile (hasAct rs)).length := by
    unfold currentStreak currentStreakData
    rw [if_neg h]
    show ((calRange rs).reverse.takeWhile (hasAct rs)).length = _
    rw [calRange_reverse rs h]
  obtain ⟨h1, h2⟩ := takeWhile_descList_spec (hasAct rs) (maxDate rs - minDate rs + 1) (maxDate rs)
  constructor
  · intro i hi
    rw [hcur] at hi
    exact h1 i hi
  · rw [hcur]
    rcases h2 with h0 | ⟨_, h0⟩
    · exact Or.inl h0
    · exact Or.inr h0

theorem currentStreak_le_len (rs : List ChartRow) (h : rs ≠ []) :
    currentStreak rs ≤ maxDate rs - minDate rs + 1 := by
  rcases (currentStreak_spec rs h).2 with h0 | ⟨⟩
  · exact le_of_eq h0
  · have hcur : currentStreak rs =
        ((descList (maxDate rs) (maxDate rs - minDate rs + 1)).takeWhile (hasAct rs)).length := by
      unfold currentStreak currentStreakData
      rw [if_neg h]
      show ((calRange rs).reverse.takeWhile (hasAct rs)).length = _
      rw [calRange_reverse rs h]
    rcases (takeWhile_descList_spec (hasAct rs)
      (maxDate rs - minDate rs + 1) (maxDate rs)).2 with h0 | ⟨h1, _⟩
    · rw [hcur]; exact le_of_eq h0
    · rw [hcur]; exact le_of_lt h1

theorem one_le_currentStreak (rs : List ChartRow) (h : rs ≠ []) :
    1 ≤ currentStreak rs := by
  rcases (currentStreak_spec rs h).2 with h0 | h0
  · omega
  · by_contra hlt
    have hz : currentStreak rs = 0 := by omega
    rw [hz, Nat.sub_zero] at h0
    rw [maxDate_act rs h] at h0
    exact absurd h0 (by simp)

theorem currentStreak_le_longest (rs : List ChartRow) (h : rs ≠ []) :
    currentStreak rs ≤ longestStreak rs := by
  have h1 := (currentStreak_spec rs h).1
  have hlen := currentStreak_le_len rs h
  have hmin := minDate_le_maxDate rs h
  cases hc : currentStreak rs with
  | zero => exact Nat.zero_le _
  | succ n =>
    rw [hc] at h1 hlen
    apply run_le_longestStreak rs h (maxDate rs - n) (n + 1)
    intro i hi
    have he : maxDate rs - n + i = maxDate rs - (n - i) := by omega
    rw [he]
    exact h1 (n - i) (by omega)

/-- Claim C4: for a non-empty dataset, the longest streak is exactly the
greatest length of a run of consecutive calendar days each carrying at
least one activity record (it bounds every such run and is itself
attained), and the current streak counts consecutive active days backward
from the dataset's maximum date, stopping at the first inactive day. -/
theorem claim_C4_streaks (rs : List ChartRow) (h : rs ≠ []) :
    (∀ d n, (∀ i < n, hasAct rs (d + i) = true) → n ≤ longestStreak rs) ∧
    (∃ d, ∀ i < longestStreak rs, hasAct rs (d + i) = true) ∧
    (∀ i < currentStreak rs, hasAct rs (maxDate rs - i) = true) ∧
    (currentStreak rs = maxDate rs - minDate rs + 1 ∨
      hasAct rs (maxDate rs - currentStreak rs) = false) :=
  ⟨fun d n hr => run_le_longestStreak rs h d n hr,
   longestStreak_attained rs h,
   (currentStreak_spec rs h).1,
   (currentStreak_spec rs h).2⟩

/-- Witness for C4: activity on days 1, 2, 3, a gap, then day 6 — the
longest streak is 3 and the current streak is 1. -/
theorem claim_C4_streaks_witness :
    longestStreak [⟨1, "A", 10⟩, ⟨2, "A", 10⟩, ⟨3, "A", 10⟩, ⟨6, "A", 10⟩] = 3 ∧
    currentStreak [⟨1, "A", 10⟩, ⟨2, "A", 10⟩, ⟨3, "A", 10⟩, ⟨6, "A", 10⟩] = 1 ∧
    (∀ d n, (∀ i < n,
        hasAct [⟨1, "A", 10⟩, ⟨2, "A", 10⟩, ⟨3, "A", 10⟩, ⟨6, "A", 10⟩] (d + i) = true) →
      n ≤ longestStreak [⟨1, "A", 10⟩, ⟨2, "A", 10⟩, ⟨3, "A", 10⟩, ⟨6, "A", 10⟩]) :=
  ⟨by decide, by decide, (claim_C4_streaks _ (by decide)).1⟩

/-- Claim C10 (implicit): for a non-empty dataset the current streak is at
least 1, its reported end date is the dataset's maximum activity date, and
the longest streak is at least the current streak. -/
theorem claim_C10_current_streak (rs : List ChartRow) (h : rs ≠ []) :
    1 ≤ currentStreak rs ∧
    (currentStreakData rs).2.2 = some (maxDate rs) ∧
    currentStreak rs ≤ longestStreak rs :=
  ⟨one_le_currentStreak rs h,
   by unfold currentStreakData; rw [if_neg h],
   currentStreak_le_longest rs h⟩

/-- Witness for C10 on the 1-2-3-gap-6 dataset. -/
theorem claim_C10_current_streak_witness :
    1 ≤ currentStreak [⟨1, "A", 10⟩, ⟨2, "A", 10⟩, ⟨3, "A", 10⟩, ⟨6, "A", 10⟩] ∧
    (currentStreakData [⟨1, "A", 10⟩, ⟨2, "A", 10⟩, ⟨3, "A", 10⟩, ⟨6, "A", 10⟩]).2.2 =
      some (maxDate [⟨1, "A", 10⟩, ⟨2, "A", 10⟩, ⟨3, "A", 10⟩, ⟨6, "A", 10⟩]) ∧
    currentStreak [⟨1, "A", 10⟩, ⟨2, "A", 10⟩, ⟨3, "A", 10⟩, ⟨6, "A", 10⟩] ≤
      longestStreak [⟨1, "A", 10⟩, ⟨2, "A", 10⟩, ⟨3, "A", 10⟩, ⟨6, "A", 10⟩] :=
  claim_C10_current_streak _ (by decide)

/-- Claim C5: a daily-XP series with fewer than 14 entries yields exactly
change percent 0.0 and direction `insufficient_data`; otherwise the change
percent compares the mean of the last 7 values with the mean of the
preceding 7 — `+100` when the prior mean is zero and the recent mean
positive, `0` when both are zero, the ratio formula otherwise — and the
direction is `increasing`/`decreasing`/`stable` by the sign of the change. -/
theorem claim_C5_recent_trend (daily : List Rat) :
    (daily.length < 14 →
      calcRecentTrend daily = ⟨0, "insufficient_data", none, none⟩) ∧
    (14 ≤ daily.length →
      (calcRecentTrend daily).recent_average = some (listMean (last7 daily)) ∧
      (calcRecentTrend daily).previous_average = some (listMean (prev7 daily)) ∧
      (listMean (prev7 daily) ≠ 0 →
        (calcRecentTrend daily).change_percent =
          (listMean (last7 daily) - listMean (prev7 daily)) / listMean (prev7 daily) * 100) ∧
      (listMean (prev7 daily) = 0 → 0 < listMean (last7 daily) →
        (calcRecentTrend daily).change_percent = 100) ∧
      (listMean (prev7 daily) = 0 → listMean (last7 daily) = 0 →
        (calcRecentTrend daily).change_percent = 0) ∧
      ((calcRecentTrend daily).direction =
        if 0 < (calcRecentTrend daily).change_percent then "increasing"
        else if (calcRecentTrend daily).change_percent < 0 then "decreasing"
        else "stable")) := by
  constructor
  · intro h
    rw [calcRecentTrend, if_pos h]
  · intro h
    have hn : ¬ daily.length < 14 := not_lt.2 h
    refine ⟨?_, ?_, ?_, ?_, ?_, ?_⟩
    · simp only [calcRecentTrend, if_neg hn]
    · simp only [calcRecentTrend, if_neg hn]
    · intro hp
      simp only [calcRecentTrend, if_neg hn, if_neg hp]
    · intro hp hr
      simp only [calcRecentTrend, if_neg hn, if_pos hp, if_pos (show listMean (last7 daily) > 0 from hr)]
    · intro hp hr
      simp only [calcRecentTrend, if_neg hn, if_pos hp, hr]
      rw [if_neg (lt_irrefl 0)]
    · simp only [calcRecentTrend, if_neg hn]

/-- Witness for C5: a 13-entry series reports insufficient data; a series
of 7 zeros followed by 7 ones (zero prior mean, positive recent mean)
reports a change of +100 percent. -/
theorem claim_C5_recent_trend_witness :
    calcRecentTrend [0, 0, 0, 0, 0, 0, 0, 0, 0, 0, 0, 0, 0] =
      ⟨0, "insufficient_data", none, none⟩ ∧
    (calcRecentTrend [0, 0, 0, 0, 0, 0, 0, 1, 1, 1, 1, 1, 1, 1]).change_percent = 100 := by
  constructor
  · exact (claim_C5_recent_trend _).1 (by decide)
  · refine ((claim_C5_recent_trend _).2 (by decide)).2.2.2.1 ?_ ?_
    · norm_num [listMean, prev7]
    · norm_num [listMean, last7]

/-- The `idxmax` fold over a key-sorted list of (key, value) pairs returns
a member attaining the maximum value whose key is least among the tied
entries (it replaces the running best only on a strictly greater value). -/
theorem pickFirstMax_foldl_spec (xs : List (String × Rat)) :
    ∀ x : String × Rat,
      List.Pairwise (fun a b : String × Rat => courseLe a.1 b.1) (x :: xs) →
      (xs.foldl (fun best y => if y.2 > best.2 then y else best) x) ∈ x :: xs ∧
      (∀ y ∈ x :: xs,
        y.2 ≤ (xs.foldl (fun best y => if y.2 > best.2 then y else best) x).2) ∧
      (∀ y ∈ x :: xs,
        y.2 = (xs.foldl (fun best y => if y.2 > best.2 then y else best) x).2 →
        courseLe (xs.foldl (fun best y => if y.2 > best.2 then y else best) x).1 y.1) := by
  induction xs with
  | nil =>
    intro x _
    refine ⟨List.mem_cons_self x [], ?_, ?_⟩
    · intro y hy
      rw [List.mem_singleton] at hy
      rw [hy]
      exact le_refl _
    · intro y hy _
      rw [List.mem_singleton] at hy
      rw [hy]
      exact le_refl x.1.data
  | cons y ys ih =>
    intro x hp
    rw [List.foldl_cons]
    set b : String × Rat := if y.2 > x.2 then y else x with hb
    have hxGy : ∀ z ∈ y :: ys, courseLe x.1 z.1 := (List.pairwise_cons.1 hp).1
    have hpYs : List.Pairwise (fun a b : String × Rat => courseLe a.1 b.1) (y :: ys) :=
      (List.pairwise_cons.1 hp).2
    have hp' : List.Pairwise (fun a b : String × Rat => courseLe a.1 b.1) (b :: ys) := by
      by_cases hcmp : y.2 > x.2
      · rw [hb, if_pos hcmp]; exact hpYs
      · rw [hb, if_neg hcmp]
        exact List.pairwise_cons.2
          ⟨fun z hz => hxGy z (List.mem_cons_of_mem y hz), (List.pairwise_cons.1 hpYs).2⟩
    have hbx : x.2 ≤ b.2 ∧ y.2 ≤ b.2 := by
      by_cases hcmp : y.2 > x.2
      · rw [hb, if_pos hcmp]; exact ⟨le_of_lt hcmp, le_refl _⟩
      · rw [hb, if_neg hcmp]; exact ⟨le_refl _, not_lt.1 hcmp⟩
    obtain ⟨hmem, hdom, hties⟩ := ih b hp'
    have hdomHead := hdom b (List.mem_cons_self b ys)
    refine ⟨?_, ?_, ?_⟩
    · rcases List.mem_cons.1 hmem with hz | hz
      · rw [hz]
        by_cases hcmp : y.2 > x.2
        · rw [hb, if_pos hcmp]; exact List.mem_cons_of_mem x (List.mem_cons_self y ys)
        · rw [hb, if_neg hcmp]; exact List.mem_cons_self x (y :: ys)
      · exact List.mem_cons_of_mem x (List.mem_cons_of_mem y hz)
    · intro w hw
      rcases List.mem_cons.1 hw with hw0 | hw0
      · rw [hw0]; exact le_trans hbx.1 hdomHead
      · rcases List.mem_cons.1 hw0 with hw1 | hw1
        · rw [hw1]; exact le_trans hbx.2 hdomHead
        · exact hdom w (List.mem_cons_of_mem _ hw1)
    · intro w hw hweq
      by_cases hcmp : y.2 > x.2
      · have hby : b = y := by rw [hb, if_pos hcmp]
        rcases List.mem_cons.1 hw with hw0 | hw0
        · -- w is the dropped entry x, whose value is strictly below the result
          exfalso
          rw [hw0] at hweq
          have hlt : x.2 < (ys.foldl (fun best y => if y.2 > best.2 then y else best) b).2 :=
            lt_of_lt_of_le (by rw [hby]; exact hcmp) hdomHead
          exact absurd hweq (ne_of_lt hlt)
        · rcases List.mem_cons.1 hw0 with hw1 | hw1
          · rw [hw1]
            rw [hw1] at hweq
            exact hties y (by rw [hby]; exact List.mem_cons_self y ys) hweq
          · exact hties w (List.mem_cons_of_mem _ hw1) hweq
      · have hbx' : b = x := by rw [hb, if_neg hcmp]
        rcases List.mem_cons.1 hw with hw0 | hw0
        · rw [hw0]
          rw [hw0] at hweq
          exact hties x (by rw [hbx']; exact List.mem_cons_self x ys) hweq
        · rcases List.mem_cons.1 hw0 with hw1 | hw1
          · -- w is the dropped entry y; a tie forces a tie with x as well
            rw [hw1]
            rw [hw1] at hweq
            have h2 := hweq.symm.le.trans (not_lt.1 hcmp)
            have hxLe := le_trans hbx.1 hdomHead
            have hxEq := le_antisymm hxLe h2
            have h1 := hties x (by rw [hbx']; exact List.mem_cons_self x ys) hxEq
            exact le_trans h1 (hxGy y (List.mem_cons_self y ys))
          · exact hties w (List.mem_cons_of_mem _ hw1) hweq

/-- Claim C9 (implicit): when several courses tie for the maximal XP of a
calendar day, the dominant course is the lexicographically smallest tied
course name — the `(date, Course)` grouping sorts its keys and `idxmax`
returns the first row attaining the maximum — in both the cumulative and
the daily dominant-course series. -/
theorem claim_C9_dominant_course_tie_break (rs : List ChartRow) (d : Nat)
    (h : rs.filter (fun r => r.date = d) ≠ []) :
    ∃ c, dominantCourseCumulative rs d = some c ∧
      dominantCourseDaily rs d = some c ∧
      c ∈ coursesOnDay rs d ∧
      (∀ c' ∈ coursesOnDay rs d, courseXpOn rs d c' ≤ courseXpOn rs d c) ∧
      (∀ c' ∈ coursesOnDay rs d,
        courseXpOn rs d c' = courseXpOn rs d c → c ≤ c') := by
  have hsorted : List.Sorted courseLe (coursesOnDay rs d) :=
    List.sorted_insertionSort courseLe _
  have hmemCourse : ∀ r ∈ rs.filter (fun r => r.date = d),
      r.course ∈ coursesOnDay rs d := by
    intro r hr
    exact ((List.perm_insertionSort courseLe _).mem_iff).2
      (List.mem_dedup.2 (List.mem_map_of_mem _ hr))
  have hne : coursesOnDay rs d ≠ [] := by
    intro hnil
    rcases List.exists_mem_of_ne_nil _ h with ⟨r, hr⟩
    have := hmemCourse r hr
    rw [hnil] at this
    exact List.not_mem_nil _ this
  rcases hcs : coursesOnDay rs d with _ | ⟨c0, cs⟩
  · exact absurd hcs hne
  · rw [hcs] at hsorted
    have hmemPair : ∀ c', c' ∈ c0 :: cs → (c', courseXpOn rs d c') ∈
        (c0, courseXpOn rs d c0) :: cs.map (fun c => (c, courseXpOn rs d c)) := by
      intro c' hc'
      rcases List.mem_cons.1 hc' with h0 | h0
      · rw [h0]; exact List.mem_cons_self _ _
      · exact List.mem_cons_of_mem _ (List.mem_map_of_mem _ h0)
    have hpairs : List.Pairwise (fun a b : String × Rat => courseLe a.1 b.1)
        ((c0, courseXpOn rs d c0) :: cs.map (fun c => (c, courseXpOn rs d c))) := by
      have hm : List.Pairwise (fun a b : String × Rat => courseLe a.1 b.1)
          ((c0 :: cs).map (fun c => (c, courseXpOn rs d c))) :=
        (List.pairwise_map).2 hsorted
      rwa [List.map_cons] at hm
    obtain ⟨hmem, hdom, hties⟩ :=
      pickFirstMax_foldl_spec (cs.map (fun c => (c, courseXpOn rs d c)))
        (c0, courseXpOn rs d c0) hpairs
    obtain ⟨z, hzdef⟩ : ∃ z, (cs.map (fun c => (c, courseXpOn rs d c))).foldl
        (fun best y => if y.2 > best.2 then y else best)
        (c0, courseXpOn rs d c0) = z := ⟨_, rfl⟩
    rw [hzdef] at hmem hdom hties
    have hpick : dominantCourseCumulative rs d = some z.1 := by
      unfold dominantCourseCumulative
      rw [hcs, List.map_cons]
      show some ((cs.map (fun c => (c, courseXpOn rs d c))).foldl
        (fun best y => if y.2 > best.2 then y else best)
        (c0, courseXpOn rs d c0)).1 = some z.1
      rw [hzdef]
    have hpick' : dominantCourseDaily rs d = some z.1 := by
      unfold dominantCourseDaily
      rw [hcs, List.map_cons]
      show some ((cs.map (fun c => (c, courseXpOn rs d c))).foldl
        (fun best y => if y.2 > best.2 then y else best)
        (c0, courseXpOn rs d c0)).1 = some z.1
      rw [hzdef]
    obtain ⟨c, hcmem, hcz⟩ := List.mem_map.1 (by rw [List.map_cons]; exact hmem :
      z ∈ (c0 :: cs).map (fun c => (c, courseXpOn rs d c)))
    have hz1 : z.1 = c := by rw [← hcz]
    have hz2 : z.2 = courseXpOn rs d c := by rw [← hcz]
    rw [hz1] at hpick hpick'
    refine ⟨c, hpick, hpick', hcmem, ?_, ?_⟩
    · intro c' hc'
      have h5 := hdom _ (hmemPair c' hc')
      rwa [hz2] at h5
    · intro c' hc' heq
      have h6 := hties _ (hmemPair c' hc') (by rw [hz2]; exact heq)
      rw [hz1] at h6
      exact String.le_iff_toList_le.2 h6

/-- Witness for C9: two courses tied at 5 XP on day 1; the dominant course
is the alphabetically smaller name in both series. -/
theorem claim_C9_dominant_course_tie_break_witness :
    dominantCourseCumulative [⟨1, "B", 5⟩, ⟨1, "A", 5⟩] 1 = some "A" ∧
    dominantCourseDaily [⟨1, "B", 5⟩, ⟨1, "A", 5⟩] 1 = some "A" := by
  obtain ⟨c, h1, h2, h3, h4, h5⟩ := claim_C9_dominant_course_tie_break
    [⟨1, "B", 5⟩, ⟨1, "A", 5⟩] 1 (by decide)
  have hAB : coursesOnDay [⟨1, "B", 5⟩, ⟨1, "A", 5⟩] 1 = ["A", "B"] := by decide
  have hxp : courseXpOn [⟨1, "B", 5⟩, ⟨1, "A", 5⟩] 1 "A" =
      courseXpOn [⟨1, "B", 5⟩, ⟨1, "A", 5⟩] 1 "B" := rfl
  have hcA : c = "A" := by
    rw [hAB] at h3 h5
    rcases List.mem_cons.1 h3 with h0 | h0
    · exact h0
    · rcases List.mem_cons.1 h0 with h0 | h0
      · exfalso
        have h7 := h5 "A" (List.mem_cons_self _ _) (by rw [h0]; exact hxp)
        rw [h0] at h7
        exact absurd (String.le_iff_toList_le.1 h7) (by decide)
      · exact absurd h0 (List.not_mem_nil c)
  rw [hcA] at h1 h2
  exact ⟨h1, h2⟩

/-- Claim C7: on every non-empty record list, `completion_rate` is the
total XP earned over total XP possible times 100, formatted to one decimal
with a trailing percent sign; when the total possible XP is 0 (for
instance, a non-empty list whose records all have zero possible XP) the
value is the literal string `"0%"` and no division error occurs. -/
theorem claim_C7_completion_rate (data : List ActivityRecord) (h : data ≠ []) :
    (total_possible_of data = 0 → completion_rate_of data = some "0%") ∧
    (total_possible_of data ≠ 0 →
      completion_rate_of data =
        some (fmtPct ((total_xp_of data : Rat) / (total_possible_of data : Rat) * 100))) := by
  rw [completion_rate_of, if_neg h]
  constructor
  · intro h0
    rw [if_neg (by rw [h0]; exact lt_irrefl 0)]
  · intro hne
    rw [if_pos (Nat.pos_of_ne_zero hne)]

/-- Witness for C7: a single record with zero possible XP gives `"0%"`,
and a single 18/15 record gives the formatted percentage. -/
theorem claim_C7_completion_rate_witness :
    completion_rate_of [⟨"2024-01-01", "A", "Lesson", "x", 5, 0, "5/0", some 42⟩] = some "0%" ∧
    completion_rate_of [⟨"2024-01-01", "A", "Quiz", "y", 18, 15, "18/15", some 42⟩] =
      some (fmtPct
        ((total_xp_of [⟨"2024-01-01", "A", "Quiz", "y", 18, 15, "18/15", some 42⟩] : Rat) /
          (total_possible_of [⟨"2024-01-01", "A", "Quiz", "y", 18, 15, "18/15", some 42⟩] : Rat)
          * 100)) := by
  constructor
  · exact (claim_C7_completion_rate _ (by decide)).1 (by decide)
  · exact (claim_C7_completion_rate _ (by decide)).2 (by decide)
